import Mathlib

/-!
Shallow embedding of the BoomBox audio-player UI state (src App component):
library of tracks, playlists, playback-session fields, media-source cache,
persistence snapshot, and the asynchronous track-change effect with its
cancellation flag.  Machine integers do not occur; JavaScript `%` on the
signed index is embedded as `Int.tmod` (truncated remainder), and JS string
helpers (`trim`, `toLowerCase`, `includes`, `split`) are embedded as
executable functions on `List Char`.
-/

namespace BoomBox

/-- A library entry: `id` is the identity string, `title` the display title,
`path` the durable file path (`handleAddFiles` tracks), `file` the in-memory
byte handle (`onFileInput` tracks), each optional exactly as in the source. -/
structure Track where
  id : String
  title : String
  path : Option String
  file : Option Nat
deriving DecidableEq

/-- A playlist: identity, user-visible name, ordered member identities. -/
structure Playlist where
  id : String
  name : String
  trackIds : List String
deriving DecidableEq

/-- The App component state: one field per `useState`/`useRef` that the
claims touch.  `srcMap` is the blob-URL cache (track id to URL), `liveUrls`
is `blobUrlsRef` (the set of not-yet-revoked URLs), `nextUrl` is the
allocator modelling `URL.createObjectURL` freshness, `shouldAutoPlay` is
`shouldAutoPlayRef`. -/
structure AppState where
  tracks : List Track
  playlists : List Playlist
  selectedPlaylistId : String
  currentIndex : Int
  isPlaying : Bool
  isLoading : Bool
  loadError : Option String
  searchQuery : String
  srcMap : List (String × Nat)
  liveUrls : List Nat
  nextUrl : Nat
  shouldAutoPlay : Bool
deriving DecidableEq

/-- The initial state of every `useState` hook in the component. -/
def initState : AppState :=
  { tracks := []
    playlists := []
    selectedPlaylistId := "all"
    currentIndex := -1
    isPlaying := false
    isLoading := false
    loadError := none
    searchQuery := ""
    srcMap := []
    liveUrls := []
    nextUrl := 0
    shouldAutoPlay := false }

/-- Source: `const currentTrack = useMemo(() => tracks[currentIndex] || null)`.
A negative or out-of-range index yields `none`. -/
def currentTrack (s : AppState) : Option Track :=
  if 0 ≤ s.currentIndex then s.tracks.get? s.currentIndex.toNat else none

/-- JS whitespace test for the characters `trim` removes (ASCII subset). -/
def isWs (c : Char) : Bool :=
  c == ' ' || c == '\t' || c == '\n' || c == '\r'

/-- Drop whitespace from both ends of a character list (JS `String.trim`). -/
def trimL (l : List Char) : List Char :=
  ((l.dropWhile isWs).reverse.dropWhile isWs).reverse

/-- JS `String.prototype.trim`. -/
def jsTrim (s : String) : String := ⟨trimL s.data⟩

/-- JS `String.prototype.toLowerCase` on ASCII data. -/
def jsLower (s : String) : String := ⟨s.data.map Char.toLower⟩

/-- Whether the first list occurs at the head of the second. -/
def headMatchL : List Char → List Char → Bool
  | [], _ => true
  | _ :: _, [] => false
  | a :: as, b :: bs => a == b && headMatchL as bs

/-- Whether the first list occurs as a contiguous run inside the second
(JS `String.prototype.includes`, needle first). -/
def hasSubL : List Char → List Char → Bool
  | q, [] => q.isEmpty
  | q, c :: cs => headMatchL q (c :: cs) || hasSubL q cs

/-- Source: `p.split(/\\|\//).pop()` — final segment of a path. -/
def lastSegment (p : String) : String :=
  (p.split (fun c => c == '\\' || c == '/')).getLastD ""

/-- Track built by `handleAddFiles` for path `p` when `Date.now()` is `now`:
`{ id: p + "-" + Date.now(), path: p, title: <final segment> }`. -/
def mkPathTrack (now : Nat) (p : String) : Track :=
  { id := p ++ "-" ++ toString now, title := lastSegment p, path := some p, file := none }

/-- Source `handleAddFiles`: append one track per dialog path, in order; if
`currentIndex === -1` and something was added, select index 0. -/
def handleAddFiles (s : AppState) (paths : List String) (now : Nat) : AppState :=
  if paths.isEmpty then s
  else
    let newItems := paths.map (mkPathTrack now)
    { s with
      tracks := s.tracks ++ newItems
      currentIndex := if s.currentIndex == -1 && !newItems.isEmpty then 0 else s.currentIndex }

/-- Track built by `onFileInput` for an input file `(name, handle)` and the
`crypto.randomUUID()` draw `uuid`: `{ id: name + "-" + uuid, file, title: name }`. -/
def mkFileTrack (nameHandle : String × Nat) (uuid : String) : Track :=
  { id := nameHandle.1 ++ "-" ++ uuid, title := nameHandle.1, path := none, file := some nameHandle.2 }

/-- Source `onFileInput`: append one session-only track per selected file;
`uuids` supplies the successive `crypto.randomUUID()` results. -/
def onFileInput (s : AppState) (files : List (String × Nat)) (uuids : List String) : AppState :=
  if files.isEmpty then s
  else
    let newItems := (files.zip uuids).map (fun fu => mkFileTrack fu.1 fu.2)
    { s with
      tracks := s.tracks ++ newItems
      currentIndex := if s.currentIndex == -1 && !newItems.isEmpty then 0 else s.currentIndex }

/-- Source `createPlaylist` confirm callback: reject blank names, else append
the playlist `{ id: "pl-" + Date.now(), name: name.trim(), trackIds: [] }`
and select it. -/
def createPlaylistConfirm (s : AppState) (name : String) (now : Nat) : AppState :=
  if name == "" || jsTrim name == "" then s
  else
    let id := "pl-" ++ toString now
    { s with
      playlists := s.playlists ++ [{ id := id, name := jsTrim name, trackIds := [] }]
      selectedPlaylistId := id }

/-- Source `deletePlaylist` (user confirmed): drop the playlist, reset the
active filter to "all" when it was selected. -/
def deletePlaylist (s : AppState) (playlistId : String) : AppState :=
  match s.playlists.find? (fun p => p.id == playlistId) with
  | none => s
  | some _ =>
    { s with
      playlists := s.playlists.filter (fun p => p.id != playlistId)
      selectedPlaylistId :=
        if s.selectedPlaylistId == playlistId then "all" else s.selectedPlaylistId }

/-- Source `renamePlaylist` confirm callback: no-op on unknown id, blank name
or unchanged name; else store the trimmed name. -/
def renamePlaylistConfirm (s : AppState) (playlistId newName : String) : AppState :=
  match s.playlists.find? (fun p => p.id == playlistId) with
  | none => s
  | some pl =>
    if newName == "" || jsTrim newName == "" || newName == pl.name then s
    else
      { s with
        playlists := s.playlists.map (fun p =>
          if p.id == playlistId then { p with name := jsTrim newName } else p) }

/-- Source `addToSelectedPlaylist`: resolve the target playlist (explicit
target or the active filter), no-op on "all", missing track, missing
playlist, or existing membership; else append the track id. -/
def addToSelectedPlaylist (s : AppState) (trackId : String) (target : Option String) : AppState :=
  if target.getD s.selectedPlaylistId == "all" then s
  else
    match s.tracks.find? (fun t => t.id == trackId),
          s.playlists.find? (fun p => p.id == target.getD s.selectedPlaylistId) with
    | some _, some pl =>
      if pl.trackIds.contains trackId then s
      else
        { s with
          playlists := s.playlists.map (fun p =>
            if p.id == target.getD s.selectedPlaylistId && !(p.trackIds.contains trackId)
            then { p with trackIds := p.trackIds ++ [trackId] } else p) }
    | _, _ => s

/-- Source `removeFromPlaylist`: drop the id from the selected playlist. -/
def removeFromPlaylist (s : AppState) (trackId : String) : AppState :=
  if s.selectedPlaylistId == "all" then s
  else
    match s.playlists.find? (fun p => p.id == s.selectedPlaylistId) with
    | none => s
    | some _ =>
      { s with
        playlists := s.playlists.map (fun p =>
          if p.id == s.selectedPlaylistId
          then { p with trackIds := p.trackIds.filter (fun i => i != trackId) } else p) }

/-- Source `deleteTrack` (user confirmed): no-op on unknown id; else remove
the track, purge the id from every playlist, and when the entry at
`currentIndex` carried that id, clear the index and stop playback. -/
def deleteTrack (s : AppState) (trackId : String) : AppState :=
  match s.tracks.find? (fun t => t.id == trackId) with
  | none => s
  | some _ =>
    { s with
      tracks := s.tracks.filter (fun t => t.id != trackId)
      playlists := s.playlists.map (fun pl =>
        { pl with trackIds := pl.trackIds.filter (fun i => i != trackId) })
      currentIndex :=
        if (currentTrack s).map Track.id == some trackId then -1 else s.currentIndex
      isPlaying :=
        if (currentTrack s).map Track.id == some trackId then false else s.isPlaying }

/-- Source `playIndex`: bounds-check, pause, request auto-play, select. -/
def playIndex (s : AppState) (index : Int) : AppState :=
  if index < 0 ∨ (s.tracks.length : Int) ≤ index then s
  else { s with currentIndex := index, isPlaying := false, shouldAutoPlay := true }

/-- Source `next`: `(currentIndex + 1) % tracks.length` with JS `%`
(truncated remainder), no-op on an empty library. -/
def nextOp (s : AppState) : AppState :=
  if s.tracks.length = 0 then s
  else playIndex s ((s.currentIndex + 1).tmod (s.tracks.length : Int))

/-- Source `prev`: `(currentIndex - 1 + tracks.length) % tracks.length`. -/
def prevOp (s : AppState) : AppState :=
  if s.tracks.length = 0 then s
  else playIndex s ((s.currentIndex - 1 + (s.tracks.length : Int)).tmod (s.tracks.length : Int))

/-- The playlist stage of the `visibleTracks` memo: intersect with the
selected playlist's membership when a playlist filter is active and found. -/
def playlistBase (s : AppState) : List Track :=
  if s.selectedPlaylistId == "all" then s.tracks
  else
    match s.playlists.find? (fun p => p.id == s.selectedPlaylistId) with
    | some pl => s.tracks.filter (fun t => pl.trackIds.contains t.id)
    | none => s.tracks

/-- The search predicate of `visibleTracks`:
`t.title.toLowerCase().includes(searchQuery.toLowerCase().trim())`. -/
def titleMatchB (q : String) (t : Track) : Bool :=
  hasSubL (jsTrim (jsLower q)).data (jsLower t.title).data

/-- Source `visibleTracks` memo: playlist stage, then — only when the raw
query does not trim to empty — the case-insensitive title filter. -/
def visibleTracks (s : AppState) : List Track :=
  if jsTrim s.searchQuery == "" then playlistBase s
  else (playlistBase s).filter (titleMatchB s.searchQuery)

/-- Spec-side query (from the spec's words, for the refinement comparison):
library tracks intersected with the playlist membership, then filtered by
the case-insensitive substring match, unconditionally. -/
def visibleTracksSpec (s : AppState) : List Track :=
  (playlistBase s).filter (titleMatchB s.searchQuery)

/-- The shape persisted to `localStorage` under `boombox:library`. -/
structure Snapshot where
  tracks : List Track
  playlists : List Playlist
deriving DecidableEq

/-- Source persist effect: keep only tracks with a `path` (projected to
`{id, path, title}`, so the byte handle is dropped); keep playlists whole. -/
def persistLibrary (s : AppState) : Snapshot :=
  { tracks := (s.tracks.filter (fun t => t.path.isSome)).map
      (fun t => { id := t.id, path := t.path, title := t.title, file := none })
    playlists := s.playlists }

/-- Source load effect (startup): install the saved tracks and playlists. -/
def loadLibrary (s : AppState) (snap : Snapshot) : AppState :=
  { s with tracks := snap.tracks, playlists := snap.playlists }

/-- Look a track id up in the blob-URL cache (`srcMap[track.id]`). -/
def lookupSrc (m : List (String × Nat)) (k : String) : Option Nat :=
  (m.find? (fun kv => kv.1 == k)).map (fun kv => kv.2)

/-- JS object update `{...m, [k]: v}` observed through `lookupSrc`. -/
def setSrc (m : List (String × Nat)) (k : String) (v : Nat) : List (String × Nat) :=
  (k, v) :: m.filter (fun kv => kv.1 != k)

/-- JS object update `delete m[k]`. -/
def delSrc (m : List (String × Nat)) (k : String) : List (String × Nat) :=
  m.filter (fun kv => kv.1 != k)

/-- Result of `preloadTrackBlob`: the returned URL (or `null`), whether
`window.boombox.readAudio` was invoked, and the state afterwards. -/
structure PreloadOut where
  url : Option Nat
  fetched : Bool
  state : AppState
deriving DecidableEq

/-- Source lines creating the object URL: allocate a fresh URL, register it
in `blobUrlsRef`, cache it under the track id, clear the loading flag. -/
def createUrl (s : AppState) (t : Track) (fetched : Bool) : PreloadOut :=
  let url := s.nextUrl
  { url := some url
    fetched := fetched
    state :=
      { s with
        nextUrl := s.nextUrl + 1
        liveUrls := url :: s.liveUrls
        srcMap := setSrc s.srcMap t.id url
        isLoading := false } }

/-- The `try`-block of `preloadTrackBlob` after the cache check: wrap the
in-memory file directly, or fetch the path's bytes (`fetchOk` is whether
`readAudio` resolves), or return `null` when the track has neither. -/
def fetchStage (s : AppState) (t : Track) (fetchOk : Bool) : PreloadOut :=
  if t.file.isSome then createUrl s t false
  else if t.path.isSome then
    if fetchOk then createUrl { s with isLoading := true, loadError := none } t true
    else
      { url := none
        fetched := true
        state := { s with isLoading := false, loadError := some ("Failed to load: " ++ t.title) } }
  else { url := none, fetched := false, state := s }

/-- Source `preloadTrackBlob`: return a cached URL that is still registered
live; evict a revoked entry and re-resolve; otherwise resolve afresh. -/
def preloadTrackBlob (s : AppState) (t : Track) (fetchOk : Bool) : PreloadOut :=
  match lookupSrc s.srcMap t.id with
  | some u =>
    if s.liveUrls.contains u then { url := some u, fetched := false, state := s }
    else fetchStage { s with srcMap := delSrc s.srcMap t.id } t fetchOk
  | none => fetchStage s t fetchOk

/-- Source blob-URL cleanup effect: for every cache entry whose track id has
left the library, revoke the URL (drop it from `blobUrlsRef`) and delete the
entry. -/
def cleanupBlobUrls (s : AppState) : AppState :=
  let present := fun tid => s.tracks.any (fun t => t.id == tid)
  let removed := s.srcMap.filter (fun kv => !(present kv.1))
  { s with
    srcMap := s.srcMap.filter (fun kv => present kv.1)
    liveUrls := s.liveUrls.filter (fun u => !(removed.any (fun kv => kv.2 == u))) }

/-- The in-memory library commands a user can trigger from the view. -/
inductive MemOp where
  | addPaths (paths : List String) (now : Nat)
  | addFiles (files : List (String × Nat)) (uuids : List String)
  | delTrack (trackId : String)
  | mkPlaylist (name : String) (now : Nat)
  | rmPlaylist (playlistId : String)
  | renPlaylist (playlistId newName : String)
  | addToPl (trackId : String) (target : Option String)
  | rmFromPl (trackId : String)
  | doPlayIndex (i : Int)
  | doNext
  | doPrev
deriving DecidableEq

/-- Dispatch one command to its handler. -/
def applyOp (s : AppState) : MemOp → AppState
  | .addPaths paths now => handleAddFiles s paths now
  | .addFiles files uuids => onFileInput s files uuids
  | .delTrack tid => deleteTrack s tid
  | .mkPlaylist name now => createPlaylistConfirm s name now
  | .rmPlaylist pid => deletePlaylist s pid
  | .renPlaylist pid nn => renamePlaylistConfirm s pid nn
  | .addToPl tid target => addToSelectedPlaylist s tid target
  | .rmFromPl tid => removeFromPlaylist s tid
  | .doPlayIndex i => playIndex s i
  | .doNext => nextOp s
  | .doPrev => prevOp s

/-- Run a command sequence left to right. -/
def applyOps (s : AppState) (ops : List MemOp) : AppState :=
  ops.foldl applyOp s

/-- The spec's membership invariant: every playlist member id names a track
currently in the library. -/
def MembershipInv (s : AppState) : Prop :=
  ∀ pl ∈ s.playlists, ∀ tid ∈ pl.trackIds, ∃ t ∈ s.tracks, t.id = tid

instance (s : AppState) : Decidable (MembershipInv s) := by
  unfold MembershipInv; infer_instance

/-- State of the track-change effect mechanism: `gens` counts effect runs
(one per selection, starting with the mount run), `flags` holds each run's
closure-local `cancelled` flag, `bound` records the last `(generation, url)`
assigned to `audio.src`. -/
structure EffectSys where
  gens : Nat
  flags : List Bool
  bound : Option (Nat × Nat)
deriving DecidableEq

/-- After the mount run of the effect: one generation, not cancelled. -/
def effInit : EffectSys :=
  { gens := 1, flags := [false], bound := none }

/-- A track change: React runs the previous effect's cleanup — which sets
that closure's `cancelled = true` — then starts a new run with a fresh
`cancelled = false`. -/
def trackChangeStep (e : EffectSys) : EffectSys :=
  { gens := e.gens + 1
    flags := (e.flags.set (e.gens - 1) true) ++ [false]
    bound := e.bound }

/-- Arrival of generation `g`'s resolved URL: the `.then` callback checks
`if (cancelled || !url) return;` and otherwise assigns `audio.src = url`. -/
def arriveStep (e : EffectSys) (g url : Nat) : EffectSys :=
  if e.flags.getD g true = false then { e with bound := some (g, url) } else e

/-- Interleaving events of the effect system. -/
inductive EffEvent where
  | change
  | arrive (g url : Nat)
deriving DecidableEq

/-- One event step. -/
def effStep (e : EffectSys) : EffEvent → EffectSys
  | .change => trackChangeStep e
  | .arrive g url => arriveStep e g url

/-- Run an event trace from the mounted state. -/
def runEff (es : List EffEvent) : EffectSys :=
  es.foldl effStep effInit

/-- Reachability invariant of the effect system: at least the mount run
exists, one flag per run, and every superseded run's flag is set. -/
def EffInv (e : EffectSys) : Prop :=
  1 ≤ e.gens ∧ e.flags.length = e.gens ∧ ∀ i, i + 1 < e.gens → e.flags.get? i = some true

/-- The spec scenario state for track deletion: library `[A, B, C]`,
current index 1 (track B), playing. -/
def c1State : AppState :=
  { initState with
    tracks := [⟨"a-1", "A", some "pa", none⟩, ⟨"b-1", "B", some "pb", none⟩,
               ⟨"c-1", "C", some "pc", none⟩]
    currentIndex := 1
    isPlaying := true }

/-- A session that puts a session-only (handle-backed) track into a
playlist: it imports `song.mp3`, creates playlist `Chill`, adds the track. -/
def c2Session : AppState :=
  applyOps initState
    [.addFiles [("song.mp3", 0)] ["u1"], .mkPlaylist "Chill" 5, .addToPl "song.mp3-u1" none]

/-- A reachable two-track library with no current selection (obtained, for
example, by deleting the current track of a three-track library). -/
def c5State : AppState :=
  { initState with
    tracks := [⟨"a-5", "A", some "pa", none⟩, ⟨"c-5", "C", some "pc", none⟩]
    currentIndex := -1 }

/-- A two-track library with the first track current. -/
def c5W : AppState :=
  { initState with
    tracks := [⟨"a-6", "A", some "pa", none⟩, ⟨"c-6", "C", some "pc", none⟩]
    currentIndex := 0 }

/-- A reachable empty library carrying a stale positive index: add two
tracks, play the second, delete the non-current one (index survives,
now dangling), then delete the remaining one (the dangling index no longer
names it, so the reset is skipped). -/
def c8Pre : AppState :=
  applyOps initState
    [.addPaths ["a"] 0, .addPaths ["b"] 1, .doPlayIndex 1, .delTrack "a-0", .delTrack "b-1"]

/-- Three-track library with current index 1, for the frame-effect claim. -/
def c10A : AppState :=
  { initState with
    tracks := [⟨"a-2", "A", some "pa", none⟩, ⟨"b-2", "B", some "pb", none⟩,
               ⟨"c-2", "C", some "pc", none⟩]
    currentIndex := 1 }

/-- Two-track library with current index 1, for the index-past-end case. -/
def c10B : AppState :=
  { initState with
    tracks := [⟨"a-3", "A", some "pa", none⟩, ⟨"b-3", "B", some "pb", none⟩]
    currentIndex := 1 }

/-- A session-only track used to exercise the resolver cache. -/
def c4TrackF : Track := ⟨"f1", "F", none, some 0⟩

/-- A second session-only track with a different identity. -/
def c4TrackG : Track := ⟨"g1", "G", none, some 1⟩

/-- State after resolving `c4TrackF` once from the initial state: its URL 0
is cached and live, and the URL allocator stands at 1. -/
def c4Mid : AppState := (preloadTrackBlob initState c4TrackF true).state

/-- A persistent track whose byte fetch will be made to fail. -/
def c6Track : Track := ⟨"p9", "Song", some "/a/Song.mp3", none⟩

/-- A state with an active playlist filter and a search query. -/
def c7State : AppState :=
  { initState with
    tracks := [⟨"x1", "Hello World", some "p1", none⟩, ⟨"y1", "Help", some "p2", none⟩,
               ⟨"z1", "Bye", some "p3", none⟩]
    playlists := [⟨"pl-7", "P", ["x1", "z1"]⟩]
    selectedPlaylistId := "pl-7"
    searchQuery := "  heLLo " }

/-- Right cancellation of string concatenation, via the character lists. -/
theorem append_right_cancel_str {a b c : String} (h : a ++ c = b ++ c) : a = b := by
  apply String.ext
  have h2 := congrArg String.data h
  rw [String.data_append, String.data_append] at h2
  exact List.append_cancel_right h2

/-- Claim C1: `deleteTrack` with an unknown id is a silent no-op; with a
known id it removes the track, purges the id from every playlist, and, when
the entry at the current index carried that id, clears the current index to
-1 and stops playback.  In particular, on library `[A, B, C]` with current
index 1, deleting B yields `[A, C]`, index -1, idle transport. -/
theorem deleteTrack_spec (s : AppState) (tid : String) :
    (s.tracks.find? (fun t => t.id == tid) = none → deleteTrack s tid = s)
    ∧ ((s.tracks.find? (fun t => t.id == tid)).isSome = true →
        (deleteTrack s tid).tracks = s.tracks.filter (fun t => t.id != tid)
        ∧ (∀ pl ∈ (deleteTrack s tid).playlists, tid ∉ pl.trackIds)
        ∧ ((currentTrack s).map Track.id = some tid →
            (deleteTrack s tid).currentIndex = -1 ∧ (deleteTrack s tid).isPlaying = false))
    ∧ (deleteTrack c1State "b-1"
        = { initState with
            tracks := [⟨"a-1", "A", some "pa", none⟩, ⟨"c-1", "C", some "pc", none⟩]
            currentIndex := -1
            isPlaying := false }) := by
  refine ⟨?_, ?_, by decide⟩
  · intro h
    simp [deleteTrack, h]
  · intro h
    obtain ⟨tr, htr⟩ := Option.isSome_iff_exists.mp h
    refine ⟨by simp [deleteTrack, htr], ?_, ?_⟩
    · intro pl hpl
      simp only [deleteTrack, htr] at hpl
      obtain ⟨pl0, _, rfl⟩ := List.mem_map.mp hpl
      intro htid
      have h2 := (List.mem_filter.mp htid).2
      simp [bne_self_eq_false] at h2
    · intro hcur
      have hbeq : ((currentTrack s).map Track.id == some tid) = true := beq_iff_eq.mpr hcur
      constructor <;> simp [deleteTrack, htr, hbeq]

/-- Witness for C1 at the spec scenario: B's id is present, B is current,
and the theorem yields the removal, the purge, and the idle transport. -/
theorem deleteTrack_spec_witness :
    ((c1State.tracks.find? (fun t => t.id == "b-1")).isSome = true)
    ∧ (deleteTrack c1State "b-1").tracks = c1State.tracks.filter (fun t => t.id != "b-1")
    ∧ (deleteTrack c1State "b-1").currentIndex = -1
    ∧ (deleteTrack c1State "b-1").isPlaying = false := by
  have h := (deleteTrack_spec c1State "b-1").2.1 (by decide)
  exact ⟨by decide, h.1, (h.2.2 (by decide)).1, (h.2.2 (by decide)).2⟩

/-- Claim C10: deleting a track that is not current leaves `currentIndex`
unchanged while later tracks shift down; consequently the track at the
current index can silently change (deleting A before current B makes C
current in `[A, B, C]`), or become none when the index falls past the new
end (deleting A in `[A, B]` with index 1). -/
theorem delete_noncurrent_frame (s : AppState) (tid : String)
    (hfound : (s.tracks.find? (fun t => t.id == tid)).isSome = true)
    (hnotcur : (currentTrack s).map Track.id ≠ some tid) :
    (deleteTrack s tid).currentIndex = s.currentIndex
    ∧ (deleteTrack s tid).tracks = s.tracks.filter (fun t => t.id != tid)
    ∧ ((currentTrack c10A).map Track.id = some "b-2"
        ∧ (currentTrack (deleteTrack c10A "a-2")).map Track.id = some "c-2")
    ∧ (currentTrack (deleteTrack c10B "a-3") = none
        ∧ (deleteTrack c10B "a-3").tracks ≠ []) := by
  obtain ⟨tr, htr⟩ := Option.isSome_iff_exists.mp hfound
  have hbeq : ((currentTrack s).map Track.id == some tid) = false :=
    beq_eq_false_iff_ne.mpr hnotcur
  exact ⟨by simp [deleteTrack, htr, hbeq], by simp [deleteTrack, htr], by decide, by decide⟩

/-- Witness for C10: in `[A, B, C]` with current index 1, deleting A keeps
index 1 even though the library shifted under it. -/
theorem delete_noncurrent_frame_witness :
    ((c10A.tracks.find? (fun t => t.id == "a-2")).isSome = true)
    ∧ (currentTrack c10A).map Track.id ≠ some "a-2"
    ∧ (deleteTrack c10A "a-2").currentIndex = c10A.currentIndex :=
  ⟨by decide, by decide, (delete_noncurrent_frame c10A "a-2" (by decide) (by decide)).1⟩

/-- Claim C8, amended: each path yields a track with identity
`path + "-" + Date.now()` and title equal to the path's final segment, the
new tracks are appended in input order, and when no track was current
(`currentIndex = -1`) before a non-empty add — in particular on a freshly
empty library — the track at index 0 becomes current, which is the first
new track when the library was empty. -/
theorem addTracksByPath_spec (s : AppState) (paths : List String) (now : Nat)
    (hne : paths ≠ []) :
    (handleAddFiles s paths now).tracks = s.tracks ++ paths.map (mkPathTrack now)
    ∧ (∀ p, (mkPathTrack now p).title = lastSegment p
        ∧ (mkPathTrack now p).id = p ++ "-" ++ toString now)
    ∧ (s.currentIndex = -1 → (handleAddFiles s paths now).currentIndex = 0)
    ∧ (s.tracks = [] → s.currentIndex = -1 →
        currentTrack (handleAddFiles s paths now) = (paths.map (mkPathTrack now)).head?) := by
  obtain ⟨p, ps, rfl⟩ := List.exists_cons_of_ne_nil hne
  refine ⟨by simp [handleAddFiles], fun q => ⟨rfl, rfl⟩, ?_, ?_⟩
  · intro hidx
    simp [handleAddFiles, hidx]
  · intro htr hidx
    simp [handleAddFiles, htr, hidx, currentTrack]

/-- Witness for C8 on a fresh library: adding `music/x.mp3` makes the new
first track (with title `x.mp3`) current. -/
theorem addTracksByPath_spec_witness :
    (["music/x.mp3"] ≠ ([] : List String))
    ∧ (handleAddFiles initState ["music/x.mp3"] 7).tracks
        = [mkPathTrack 7 "music/x.mp3"]
    ∧ currentTrack (handleAddFiles initState ["music/x.mp3"] 7)
        = some (mkPathTrack 7 "music/x.mp3") := by
  have h := addTracksByPath_spec initState ["music/x.mp3"] 7 (by decide)
  refine ⟨by decide, by simpa using h.1, ?_⟩
  have h4 := h.2.2.2 rfl rfl
  simpa using h4

/-- Counterexample to C8 as stated: `c8Pre` is a reachable state whose
library is empty while `currentIndex` is a stale 1, so the guard
`currentIndex === -1` fails: after adding a track to the empty library, no
track is current at all — the new first track did not become current. -/
theorem addTracksByPath_empty_cex :
    c8Pre.tracks = []
    ∧ (handleAddFiles c8Pre ["c"] 2).tracks.length = 1
    ∧ currentTrack (handleAddFiles c8Pre ["c"] 2) = none := by decide

/-- Claim C9, amended: library identities stay pairwise distinct across
adds provided the generated ids are fresh — for path adds, the paths of one
call are distinct and no existing id equals `path + "-" + now`; for file
input, the `name + "-" + uuid` ids are pairwise distinct and avoid existing
ids.  (The path scheme alone does not guarantee this: the same path added
twice in the same millisecond collides.) -/
theorem track_ids_unique (s : AppState) (paths : List String) (now : Nat)
    (files : List (String × Nat)) (uuids : List String)
    (hs : (s.tracks.map Track.id).Nodup) :
    (paths.Nodup →
      (∀ p ∈ paths, ∀ t ∈ s.tracks, t.id ≠ p ++ "-" ++ toString now) →
      ((handleAddFiles s paths now).tracks.map Track.id).Nodup)
    ∧ ((((files.zip uuids).map (fun fu => fu.1.1 ++ "-" ++ fu.2)).Nodup) →
      (∀ fu ∈ files.zip uuids, ∀ t ∈ s.tracks, t.id ≠ fu.1.1 ++ "-" ++ fu.2) →
      ((onFileInput s files uuids).tracks.map Track.id).Nodup) := by
  constructor
  · intro hp hfresh
    by_cases hpe : paths = []
    · subst hpe; simpa [handleAddFiles] using hs
    · obtain ⟨p, ps, rfl⟩ := List.exists_cons_of_ne_nil hpe
      have hinj : Function.Injective (fun q : String => q ++ "-" ++ toString now) := by
        intro a b hab
        exact append_right_cancel_str (append_right_cancel_str hab)
      have hmap : ((p :: ps).map (mkPathTrack now)).map Track.id
          = (p :: ps).map (fun q => q ++ "-" ++ toString now) := by
        rw [List.map_map]; rfl
      have hnew : (((p :: ps).map (mkPathTrack now)).map Track.id).Nodup := by
        rw [hmap]; exact hp.map hinj
      have hdisj : (s.tracks.map Track.id).Disjoint
          (((p :: ps).map (mkPathTrack now)).map Track.id) := by
        rw [hmap]
        intro a ha hb
        obtain ⟨t, ht, rfl⟩ := List.mem_map.mp ha
        obtain ⟨q, hq, heq⟩ := List.mem_map.mp hb
        exact hfresh q hq t ht heq.symm
      have : (handleAddFiles s (p :: ps) now).tracks
          = s.tracks ++ (p :: ps).map (mkPathTrack now) := by
        simp [handleAddFiles]
      rw [this, List.map_append]
      exact hs.append hnew hdisj
  · intro hf hfresh
    by_cases hfe : files = []
    · subst hfe; simpa [onFileInput] using hs
    · obtain ⟨f, fs, rfl⟩ := List.exists_cons_of_ne_nil hfe
      have hmap : (((f :: fs).zip uuids).map (fun fu => mkFileTrack fu.1 fu.2)).map Track.id
          = ((f :: fs).zip uuids).map (fun fu => fu.1.1 ++ "-" ++ fu.2) := by
        rw [List.map_map]; rfl
      have hnew : ((((f :: fs).zip uuids).map (fun fu => mkFileTrack fu.1 fu.2)).map Track.id).Nodup := by
        rw [hmap]; exact hf
      have hdisj : (s.tracks.map Track.id).Disjoint
          ((((f :: fs).zip uuids).map (fun fu => mkFileTrack fu.1 fu.2)).map Track.id) := by
        rw [hmap]
        intro a ha hb
        obtain ⟨t, ht, rfl⟩ := List.mem_map.mp ha
        obtain ⟨fu, hfu, heq⟩ := List.mem_map.mp hb
        exact hfresh fu hfu t ht heq.symm
      have : (onFileInput s (f :: fs) uuids).tracks
          = s.tracks ++ ((f :: fs).zip uuids).map (fun fu => mkFileTrack fu.1 fu.2) := by
        simp [onFileInput]
      rw [this, List.map_append]
      exact hs.append hnew hdisj

/-- Witness for C9: two different paths in one millisecond and one imported
file with a fresh UUID keep all library ids distinct. -/
theorem track_ids_unique_witness :
    (((handleAddFiles initState ["a.mp3", "b.mp3"] 4).tracks.map Track.id).Nodup)
    ∧ (((onFileInput (handleAddFiles initState ["a.mp3", "b.mp3"] 4)
          [("a.mp3", 0)] ["9d2c"]).tracks.map Track.id).Nodup) := by
  constructor
  · exact (track_ids_unique initState ["a.mp3", "b.mp3"] 4 [] [] (by decide)).1
      (by decide) (by decide)
  · exact (track_ids_unique (handleAddFiles initState ["a.mp3", "b.mp3"] 4)
      [] 0 [("a.mp3", 0)] ["9d2c"] (by decide)).2 (by decide) (by decide)

/-- Counterexample to C9 as stated: adding the same path twice while
`Date.now()` returns the same millisecond produces two tracks with the
identical id `a.mp3-0`. -/
theorem duplicate_id_cex :
    ¬ (((handleAddFiles (handleAddFiles initState ["a.mp3"] 0) ["a.mp3"] 0).tracks.map
        Track.id).Nodup) := by decide

/-- Neither bounds-checked selection branch touches the track list. -/
theorem playIndex_tracks (s : AppState) (i : Int) : (playIndex s i).tracks = s.tracks := by
  unfold playIndex
  split <;> rfl

/-- The skip command only moves the index. -/
theorem nextOp_tracks (s : AppState) : (nextOp s).tracks = s.tracks := by
  unfold nextOp
  split
  · rfl
  · exact playIndex_tracks s _

/-- On a non-empty library, `next` lands on the Euclidean successor index. -/
theorem nextOp_currentIndex (s : AppState) (hidx : -1 ≤ s.currentIndex)
    (hne : s.tracks.length ≠ 0) :
    (nextOp s).currentIndex = (s.currentIndex + 1) % (s.tracks.length : Int) := by
  have hnz : (0 : Int) < (s.tracks.length : Int) := by
    exact_mod_cast Nat.pos_of_ne_zero hne
  have he : (s.currentIndex + 1).tmod (s.tracks.length : Int)
      = (s.currentIndex + 1) % (s.tracks.length : Int) :=
    Int.tmod_eq_emod (by omega) hnz.le
  simp only [nextOp, if_neg hne, playIndex, he]
  rw [if_neg]
  push_neg
  exact ⟨Int.emod_nonneg _ (ne_of_gt hnz), Int.emod_lt_of_pos _ hnz⟩

/-- Iterating `next` from an in-range index walks the Euclidean residues. -/
theorem nextOp_iterate (s : AppState) (h0 : 0 ≤ s.currentIndex)
    (h1 : s.currentIndex < (s.tracks.length : Int)) (k : Nat) :
    (nextOp^[k] s).tracks = s.tracks
    ∧ (nextOp^[k] s).currentIndex = (s.currentIndex + k) % (s.tracks.length : Int) := by
  have hnz : (0 : Int) < (s.tracks.length : Int) := lt_of_le_of_lt h0 h1
  have hne : s.tracks.length ≠ 0 := by
    intro hc
    rw [hc] at hnz
    exact absurd hnz (by norm_num)
  induction k with
  | zero =>
    refine ⟨rfl, ?_⟩
    simp only [Function.iterate_zero, id_eq, Nat.cast_zero, add_zero]
    exact (Int.emod_eq_of_lt h0 h1).symm
  | succ k ih =>
    obtain ⟨ht, hi⟩ := ih
    rw [Function.iterate_succ_apply']
    have hlen : (nextOp^[k] s).tracks.length = s.tracks.length := by rw [ht]
    have hcur0 : 0 ≤ (nextOp^[k] s).currentIndex := by
      rw [hi]
      exact Int.emod_nonneg _ (ne_of_gt hnz)
    refine ⟨by rw [nextOp_tracks, ht], ?_⟩
    rw [nextOp_currentIndex _ (by omega) (by rw [hlen]; exact hne), hlen, hi]
    have h3 : ((s.currentIndex + (k : Int)) % (s.tracks.length : Int) + 1)
          % (s.tracks.length : Int)
        = (s.currentIndex + (k : Int) + 1) % (s.tracks.length : Int) := by
      rw [Int.add_emod (s.currentIndex + (k : Int)) 1,
        Int.add_emod ((s.currentIndex + (k : Int)) % (s.tracks.length : Int)) 1,
        Int.emod_emod_of_dvd _ dvd_rfl]
    rw [h3]
    have h4 : ((k + 1 : Nat) : Int) = (k : Int) + 1 := by push_cast; ring
    rw [h4, add_assoc]

/-- Claim C5, amended: `next` computes `(currentIndex + 1) mod trackCount`
and `previous` computes `(currentIndex - 1 + trackCount) mod trackCount`,
both are no-ops on an empty library, and from any in-range current index
(`0 ≤ currentIndex < trackCount`) composing `next` exactly `trackCount`
times returns to the original index.  (From the no-selection index -1 the
cycle lands on `trackCount - 1` instead; see the counterexample.) -/
theorem next_prev_spec (s : AppState) (hidx : -1 ≤ s.currentIndex) :
    (s.tracks = [] → nextOp s = s ∧ prevOp s = s)
    ∧ (s.tracks ≠ [] →
        (nextOp s).currentIndex = (s.currentIndex + 1) % (s.tracks.length : Int)
        ∧ (prevOp s).currentIndex
            = (s.currentIndex - 1 + (s.tracks.length : Int)) % (s.tracks.length : Int))
    ∧ (0 ≤ s.currentIndex → s.currentIndex < (s.tracks.length : Int) →
        (nextOp^[s.tracks.length] s).currentIndex = s.currentIndex) := by
  refine ⟨?_, ?_, ?_⟩
  · intro h
    constructor <;> simp [nextOp, prevOp, h]
  · intro hne0
    have hne : s.tracks.length ≠ 0 := by
      intro hc
      exact hne0 (List.length_eq_zero.mp hc)
    have hnz : (0 : Int) < (s.tracks.length : Int) := by
      exact_mod_cast Nat.pos_of_ne_zero hne
    refine ⟨nextOp_currentIndex s hidx hne, ?_⟩
    by_cases h1 : s.tracks.length = 1
    · have hcast : ((s.tracks.length : Int)) = 1 := by
        rw [h1]
        norm_num
      simp only [prevOp, if_neg hne, playIndex]
      rw [hcast, Int.tmod_one, Int.emod_one]
      rw [if_neg (by norm_num)]
    · have h2 : (2 : Int) ≤ (s.tracks.length : Int) := by
        have : 2 ≤ s.tracks.length := by omega
        exact_mod_cast this
      have he : (s.currentIndex - 1 + (s.tracks.length : Int)).tmod (s.tracks.length : Int)
          = (s.currentIndex - 1 + (s.tracks.length : Int)) % (s.tracks.length : Int) :=
        Int.tmod_eq_emod (by omega) hnz.le
      simp only [prevOp, if_neg hne, playIndex, he]
      rw [if_neg]
      push_neg
      exact ⟨Int.emod_nonneg _ (ne_of_gt hnz), Int.emod_lt_of_pos _ hnz⟩
  · intro h0 h1
    rw [(nextOp_iterate s h0 h1 s.tracks.length).2]
    rw [show s.currentIndex + (s.tracks.length : Int)
        = s.currentIndex + (s.tracks.length : Int) * 1 by ring]
    rw [Int.add_mul_emod_self_left]
    exact Int.emod_eq_of_lt h0 h1

/-- Witness for C5 on a two-track library with index 0: the skip formula
holds and two skips return to index 0. -/
theorem next_prev_spec_witness :
    c5W.tracks ≠ []
    ∧ (nextOp c5W).currentIndex = (c5W.currentIndex + 1) % (c5W.tracks.length : Int)
    ∧ (prevOp c5W).currentIndex
        = (c5W.currentIndex - 1 + (c5W.tracks.length : Int)) % (c5W.tracks.length : Int)
    ∧ (nextOp^[c5W.tracks.length] c5W).currentIndex = c5W.currentIndex := by
  have h := next_prev_spec c5W (by decide)
  have h2 := h.2.1 (by decide)
  exact ⟨by decide, h2.1, h2.2, h.2.2 (by decide) (by decide)⟩

/-- Counterexample to C5 as stated: from the reachable no-selection state
(`currentIndex = -1`, two tracks), composing `next` twice ends at index 1,
not at the original index -1. -/
theorem next_cycle_cex :
    (nextOp^[c5State.tracks.length] c5State).currentIndex ≠ c5State.currentIndex := by decide

/-- Adding path tracks preserves membership. -/
theorem inv_handleAddFiles (s : AppState) (paths : List String) (now : Nat)
    (h : MembershipInv s) : MembershipInv (handleAddFiles s paths now) := by
  unfold handleAddFiles
  split
  · exact h
  · intro pl hpl tid htid
    obtain ⟨tr, htr, hid⟩ := h pl hpl tid htid
    exact ⟨tr, List.mem_append_left _ htr, hid⟩

/-- Adding session-only tracks preserves membership. -/
theorem inv_onFileInput (s : AppState) (files : List (String × Nat)) (uuids : List String)
    (h : MembershipInv s) : MembershipInv (onFileInput s files uuids) := by
  unfold onFileInput
  split
  · exact h
  · intro pl hpl tid htid
    obtain ⟨tr, htr, hid⟩ := h pl hpl tid htid
    exact ⟨tr, List.mem_append_left _ htr, hid⟩

/-- Deleting a track purges it everywhere, so membership survives. -/
theorem inv_deleteTrack (s : AppState) (tid : String) (h : MembershipInv s) :
    MembershipInv (deleteTrack s tid) := by
  unfold deleteTrack
  split
  · exact h
  · intro pl hpl tid2 htid2
    obtain ⟨pl0, hpl0, rfl⟩ := List.mem_map.mp hpl
    have h2 := List.mem_filter.mp htid2
    obtain ⟨tr, htr, hid⟩ := h pl0 hpl0 tid2 h2.1
    refine ⟨tr, List.mem_filter.mpr ⟨htr, ?_⟩, hid⟩
    rw [hid]
    exact h2.2

/-- A new playlist starts empty, so membership survives. -/
theorem inv_createPlaylistConfirm (s : AppState) (name : String) (now : Nat)
    (h : MembershipInv s) : MembershipInv (createPlaylistConfirm s name now) := by
  unfold createPlaylistConfirm
  split
  · exact h
  · intro pl hpl tid htid
    rcases List.mem_append.mp hpl with hl | hr
    · exact h pl hl tid htid
    · have : pl = { id := "pl-" ++ toString now, name := jsTrim name, trackIds := [] } := by
        simpa using hr
      rw [this] at htid
      simp at htid

/-- Removing a playlist preserves membership. -/
theorem inv_deletePlaylist (s : AppState) (pid : String) (h : MembershipInv s) :
    MembershipInv (deletePlaylist s pid) := by
  unfold deletePlaylist
  split
  · exact h
  · intro pl hpl tid htid
    exact h pl (List.mem_filter.mp hpl).1 tid htid

/-- Renaming keeps every membership list, so membership survives. -/
theorem inv_renamePlaylistConfirm (s : AppState) (pid nn : String) (h : MembershipInv s) :
    MembershipInv (renamePlaylistConfirm s pid nn) := by
  unfold renamePlaylistConfirm
  split
  · exact h
  · split
    · exact h
    · intro pl hpl tid htid
      obtain ⟨pl0, hpl0, rfl⟩ := List.mem_map.mp hpl
      have key : tid ∈ pl0.trackIds := by
        by_cases hc : (pl0.id == pid) = true
        · rw [if_pos hc] at htid
          exact htid
        · rw [if_neg hc] at htid
          exact htid
      exact h pl0 hpl0 tid key

/-- Only ids of tracks found in the library are appended to a playlist. -/
theorem inv_addToSelectedPlaylist (s : AppState) (tid : String) (target : Option String)
    (h : MembershipInv s) : MembershipInv (addToSelectedPlaylist s tid target) := by
  unfold addToSelectedPlaylist
  split
  · exact h
  · split
    case _ tr pl h1 h2 =>
      split
      · exact h
      · intro pl2 hpl2 tid2 htid2
        obtain ⟨pl0, hpl0, rfl⟩ := List.mem_map.mp hpl2
        by_cases hc : (pl0.id == target.getD s.selectedPlaylistId
            && !(pl0.trackIds.contains tid)) = true
        · rw [if_pos hc] at htid2
          rcases List.mem_append.mp htid2 with hl | hr
          · exact h pl0 hpl0 tid2 hl
          · have : tid2 = tid := by simpa using hr
            subst this
            have htr := List.mem_of_find?_eq_some h1
            have hidb := List.find?_some h1
            exact ⟨tr, htr, by simpa using hidb⟩
        · rw [if_neg hc] at htid2
          exact h pl0 hpl0 tid2 htid2
    case _ => exact h

/-- Removing a playlist member preserves membership. -/
theorem inv_removeFromPlaylist (s : AppState) (tid : String) (h : MembershipInv s) :
    MembershipInv (removeFromPlaylist s tid) := by
  unfold removeFromPlaylist
  split
  · exact h
  · split
    · exact h
    · intro pl hpl tid2 htid2
      obtain ⟨pl0, hpl0, rfl⟩ := List.mem_map.mp hpl
      have key : tid2 ∈ pl0.trackIds := by
        by_cases hc : (pl0.id == s.selectedPlaylistId) = true
        · rw [if_pos hc] at htid2
          exact (List.mem_filter.mp htid2).1
        · rw [if_neg hc] at htid2
          exact htid2
      exact h pl0 hpl0 tid2 key

/-- Selecting an index does not touch tracks or playlists. -/
theorem inv_playIndex (s : AppState) (i : Int) (h : MembershipInv s) :
    MembershipInv (playIndex s i) := by
  unfold playIndex
  split
  · exact h
  · exact h

/-- Every in-memory command preserves the membership invariant. -/
theorem inv_applyOp (s : AppState) (op : MemOp) (h : MembershipInv s) :
    MembershipInv (applyOp s op) := by
  cases op with
  | addPaths paths now => exact inv_handleAddFiles s paths now h
  | addFiles files uuids => exact inv_onFileInput s files uuids h
  | delTrack tid => exact inv_deleteTrack s tid h
  | mkPlaylist name now => exact inv_createPlaylistConfirm s name now h
  | rmPlaylist pid => exact inv_deletePlaylist s pid h
  | renPlaylist pid nn => exact inv_renamePlaylistConfirm s pid nn h
  | addToPl tid target => exact inv_addToSelectedPlaylist s tid target h
  | rmFromPl tid => exact inv_removeFromPlaylist s tid h
  | doPlayIndex i => exact inv_playIndex s i h
  | doNext =>
    show MembershipInv (nextOp s)
    unfold nextOp
    split
    · exact h
    · exact inv_playIndex s _ h
  | doPrev =>
    show MembershipInv (prevOp s)
    unfold prevOp
    split
    · exact h
    · exact inv_playIndex s _ h

/-- Claim C2, amended: every sequence of in-memory commands — adding tracks,
deleting tracks, creating, renaming or deleting playlists, adding or
removing playlist members, selections and skips — preserves the invariant
that every playlist member id names a track in the library.  (Loading a
persisted snapshot does not: see the counterexample.) -/
theorem memOps_preserve_membership (s : AppState) (ops : List MemOp)
    (h : MembershipInv s) : MembershipInv (applyOps s ops) := by
  induction ops generalizing s with
  | nil => exact h
  | cons op rest ih => exact ih (applyOp s op) (inv_applyOp s op h)

/-- Witness for C2: the invariant holds initially and after a concrete
command sequence. -/
theorem memOps_preserve_membership_witness :
    MembershipInv initState
    ∧ MembershipInv (applyOps initState [.addPaths ["w.mp3"] 9, .mkPlaylist "Mix" 3]) :=
  ⟨by decide,
    memOps_preserve_membership initState [.addPaths ["w.mp3"] 9, .mkPlaylist "Mix" 3] (by decide)⟩

/-- Counterexample to C2 as stated: `c2Session` (a reachable session whose
playlist holds a session-only track) satisfies the invariant, but persisting
drops the pathless track while keeping its playlist reference, so loading
that very snapshot at startup violates the invariant. -/
theorem load_breaks_membership_cex :
    MembershipInv c2Session
    ∧ ¬ MembershipInv (loadLibrary initState (persistLibrary c2Session)) := by decide

/-- `List.getD` through `List.get?`. -/
theorem getD_flags (l : List Bool) (i : Nat) (d : Bool) : l.getD i d = (l.get? i).getD d := by
  simp [List.getD_eq_getElem?_getD, List.get?_eq_getElem?]

/-- The mounted effect system satisfies the effect invariant. -/
theorem effInv_init : EffInv effInit := by
  refine ⟨le_refl 1, rfl, ?_⟩
  intro i hi
  exfalso
  simp only [effInit] at hi
  omega

/-- Each event preserves the effect invariant. -/
theorem effInv_step (e : EffectSys) (ev : EffEvent) (h : EffInv e) : EffInv (effStep e ev) := by
  obtain ⟨hg, hlen, hflag⟩ := h
  cases ev with
  | arrive g url =>
    show EffInv (arriveStep e g url)
    unfold arriveStep
    split
    · exact ⟨hg, hlen, hflag⟩
    · exact ⟨hg, hlen, hflag⟩
  | change =>
    show EffInv (trackChangeStep e)
    refine ⟨by simp only [trackChangeStep]; omega, ?_, ?_⟩
    · simp [trackChangeStep, List.length_set, hlen]
    · intro i hi
      simp only [trackChangeStep] at hi ⊢
      have hi2 : i < e.gens := by omega
      have hlt : i < (e.flags.set (e.gens - 1) true).length := by
        rw [List.length_set, hlen]
        exact hi2
      rw [List.get?_append hlt]
      by_cases hc : i = e.gens - 1
      · subst hc
        rw [List.get?_set_eq]
        cases hq : e.flags.get? (e.gens - 1) with
        | none =>
          have := List.get?_eq_none.mp hq
          omega
        | some b => simp
      · rw [List.get?_set_ne _ _ (Ne.symm hc)]
        exact hflag i (by omega)

/-- Every reachable effect state satisfies the effect invariant. -/
theorem effInv_run (es : List EffEvent) : EffInv (runEff es) := by
  have key : ∀ e, EffInv e → EffInv (es.foldl effStep e) := by
    induction es with
    | nil => exact fun e h => h
    | cons ev rest ih => exact fun e h => ih _ (effInv_step e ev h)
  exact key effInit effInv_init

/-- Claim C3: in every reachable effect state, the arrival of a resolution
belonging to a superseded selection (its generation older than the newest)
is a no-op — the stale source is never bound — and any arrival that does
change the state carries the newest generation. -/
theorem stale_resolution_never_binds (es : List EffEvent) (g url : Nat) :
    (g + 1 < (runEff es).gens → arriveStep (runEff es) g url = runEff es)
    ∧ (arriveStep (runEff es) g url ≠ runEff es → g + 1 = (runEff es).gens) := by
  obtain ⟨hg, hlen, hflag⟩ := effInv_run es
  constructor
  · intro hstale
    have h1 : (runEff es).flags.getD g true = true := by
      rw [getD_flags, hflag g hstale]
      rfl
    unfold arriveStep
    rw [if_neg (by rw [h1]; simp)]
  · intro hne
    by_contra hne2
    apply hne
    unfold arriveStep
    rw [if_neg]
    intro hfalse
    rw [getD_flags] at hfalse
    cases hq : (runEff es).flags.get? g with
    | none =>
      rw [hq] at hfalse
      simp at hfalse
    | some b =>
      rw [hq] at hfalse
      simp only [Option.getD_some] at hfalse
      subst hfalse
      have hlt : g < (runEff es).flags.length := by
        by_contra hge
        push_neg at hge
        rw [List.get?_eq_none.mpr hge] at hq
        cases hq
      have hcase : g + 1 < (runEff es).gens ∨ g + 1 = (runEff es).gens := by omega
      rcases hcase with hc | hc
      · rw [hflag g hc] at hq
        cases hq
      · exact hne2 hc

/-- Witness for C3 at the spec scenario: after one further track change, the
pending generation-0 resolution arrives and binds nothing. -/
theorem stale_resolution_never_binds_witness :
    0 + 1 < (runEff [.change]).gens
    ∧ arriveStep (runEff [.change]) 0 7 = runEff [.change] :=
  ⟨by decide, (stale_resolution_never_binds [.change] 0 7).1 (by decide)⟩

/-- A freshly cached URL is found under its track id. -/
theorem lookup_setSrc_self (m : List (String × Nat)) (k : String) (v : Nat) :
    lookupSrc (setSrc m k v) k = some v := by
  unfold lookupSrc setSrc
  rw [List.find?_cons_of_pos _ (by simp)]
  rfl

/-- A deleted cache key is no longer found. -/
theorem lookup_delSrc_self (m : List (String × Nat)) (k : String) :
    lookupSrc (delSrc m k) k = none := by
  unfold lookupSrc delSrc
  rw [List.find?_eq_none.mpr]
  · rfl
  · intro kv hkv
    have h2 := (List.mem_filter.mp hkv).2
    rw [bne_iff_ne] at h2
    simp [h2]

/-- Any URL the fetch stage hands back is cached under the track id and is
registered live in the state it returns. -/
theorem fetchStage_success_cached (s : AppState) (t : Track) (fo : Bool) (u : Nat) :
    (fetchStage s t fo).url = some u →
    lookupSrc (fetchStage s t fo).state.srcMap t.id = some u
    ∧ (fetchStage s t fo).state.liveUrls.contains u = true := by
  unfold fetchStage
  split
  · intro h
    have hu : s.nextUrl = u := by simpa [createUrl] using h
    subst hu
    constructor
    · simpa [createUrl] using lookup_setSrc_self s.srcMap t.id s.nextUrl
    · simp [createUrl]
  · split
    · split
      · intro h
        have hu : s.nextUrl = u := by simpa [createUrl] using h
        subst hu
        constructor
        · simpa [createUrl] using lookup_setSrc_self s.srcMap t.id s.nextUrl
        · simp [createUrl]
      · intro h
        simp at h
    · intro h
      simp at h

/-- Any URL `preloadTrackBlob` hands back is cached under the track id and
is registered live in the state it returns. -/
theorem preload_success_cached (s : AppState) (t : Track) (fo : Bool) (u : Nat) :
    (preloadTrackBlob s t fo).url = some u →
    lookupSrc (preloadTrackBlob s t fo).state.srcMap t.id = some u
    ∧ (preloadTrackBlob s t fo).state.liveUrls.contains u = true := by
  unfold preloadTrackBlob
  split
  case _ w heq =>
    split
    case _ hc =>
      intro h
      have hw : w = u := by simpa using h
      subst hw
      exact ⟨heq, hc⟩
    case _ hc => exact fetchStage_success_cached _ t fo u
  case _ heq => exact fetchStage_success_cached s t fo u

/-- A live cache hit returns immediately: same URL, no fetch, no change. -/
theorem preload_cache_hit (s : AppState) (t : Track) (fo : Bool) (u : Nat)
    (h1 : lookupSrc s.srcMap t.id = some u) (h2 : s.liveUrls.contains u = true) :
    preloadTrackBlob s t fo = { url := some u, fetched := false, state := s } := by
  unfold preloadTrackBlob
  simp only [h1]
  rw [if_pos h2]

/-- The fetch stage never reuses an allocated URL number. -/
theorem fetchStage_nextUrl_le (s : AppState) (t : Track) (fo : Bool) :
    s.nextUrl ≤ (fetchStage s t fo).state.nextUrl := by
  unfold fetchStage createUrl
  split
  · exact Nat.le_succ _
  · split
    · split
      · exact Nat.le_succ _
      · exact le_refl _
    · exact le_refl _

/-- Resolution never decreases the URL allocator, so previously released
URLs stay strictly below it. -/
theorem preload_nextUrl_le (s : AppState) (t : Track) (fo : Bool) :
    s.nextUrl ≤ (preloadTrackBlob s t fo).state.nextUrl := by
  unfold preloadTrackBlob
  split
  · split
    · exact le_refl _
    · exact fetchStage_nextUrl_le { s with srcMap := delSrc s.srcMap t.id } t fo
  · exact fetchStage_nextUrl_le s t fo

/-- Eviction leaves the URL allocator untouched. -/
theorem cleanup_nextUrl (s : AppState) : (cleanupBlobUrls s).nextUrl = s.nextUrl := rfl

/-- Claim C4: resolving a track again while its cache entry is live returns
the identical handle with no second byte fetch and no state change; when a
track id has left the library, the cleanup effect evicts its cache entry and
releases its URL; and resolving any identity with no cache entry returns the
fresh allocator value, never a previously allocated (stale) handle. -/
theorem resolver_cache_spec (s : AppState) (t t2 : Track) (fo fo2 : Bool)
    (tid : String) (u v : Nat) :
    ((preloadTrackBlob s t fo).url = some u →
        preloadTrackBlob (preloadTrackBlob s t fo).state t fo2
          = { url := some u, fetched := false, state := (preloadTrackBlob s t fo).state })
    ∧ (s.tracks.any (fun tr => tr.id == tid) = false →
        lookupSrc (cleanupBlobUrls s).srcMap tid = none
        ∧ (lookupSrc s.srcMap tid = some u → u ∉ (cleanupBlobUrls s).liveUrls))
    ∧ (lookupSrc s.srcMap t2.id = none → (preloadTrackBlob s t2 fo).url = some v →
        v = s.nextUrl ∧ (u < s.nextUrl → v ≠ u)) := by
  refine ⟨?_, ?_, ?_⟩
  · intro h
    obtain ⟨h1, h2⟩ := preload_success_cached s t fo u h
    exact preload_cache_hit _ t fo2 u h1 h2
  · intro hany
    constructor
    · simp only [cleanupBlobUrls, lookupSrc]
      rw [List.find?_eq_none.mpr]
      · rfl
      · intro kv hkv hbeq
        have hpres := (List.mem_filter.mp hkv).2
        have hkv1 : kv.1 = tid := by simpa using hbeq
        rw [hkv1, hany] at hpres
        cases hpres
    · intro hlk hmem
      unfold lookupSrc at hlk
      obtain ⟨kv0, hfind, hkv2⟩ := Option.map_eq_some'.mp hlk
      have hkvmem := List.mem_of_find?_eq_some hfind
      have hkv1 : kv0.1 = tid := by simpa using List.find?_some hfind
      simp only [cleanupBlobUrls] at hmem
      have h5 := (List.mem_filter.mp hmem).2
      have h6 : kv0 ∈ s.srcMap.filter (fun kv => !(s.tracks.any (fun tr => tr.id == kv.1))) := by
        refine List.mem_filter.mpr ⟨hkvmem, ?_⟩
        rw [hkv1, hany]
        rfl
      have h7 : (s.srcMap.filter (fun kv => !(s.tracks.any (fun tr => tr.id == kv.1)))).any
          (fun kv => kv.2 == u) = true := by
        refine List.any_eq_true.mpr ⟨kv0, h6, ?_⟩
        rw [hkv2]
        exact beq_self_eq_true u
      rw [h7] at h5
      cases h5
  · intro hlk hurl
    have hred : preloadTrackBlob s t2 fo = fetchStage s t2 fo := by
      unfold preloadTrackBlob
      rw [hlk]
    rw [hred] at hurl
    have hv : v = s.nextUrl := by
      unfold fetchStage createUrl at hurl
      split at hurl
      · exact (Option.some.inj hurl).symm
      · split at hurl
        · split at hurl
          · exact (Option.some.inj hurl).symm
          · exact absurd hurl (by simp)
        · exact absurd hurl (by simp)
    refine ⟨hv, ?_⟩
    intro hu
    rw [hv]
    exact ne_of_gt hu

/-- Witness for C4 around the state `c4Mid` holding one live cached handle:
re-resolving returns the identical handle without fetching; the cleanup
effect (its track is absent from the library) evicts and releases it; a
fresh identity resolves to allocator value 1, not the stale 0. -/
theorem resolver_cache_spec_witness :
    ((preloadTrackBlob c4Mid c4TrackF true).url = some 0
      ∧ preloadTrackBlob (preloadTrackBlob c4Mid c4TrackF true).state c4TrackF true
          = { url := some 0, fetched := false, state := (preloadTrackBlob c4Mid c4TrackF true).state })
    ∧ (c4Mid.tracks.any (fun tr => tr.id == "f1") = false
      ∧ lookupSrc (cleanupBlobUrls c4Mid).srcMap "f1" = none
      ∧ (0 : Nat) ∉ (cleanupBlobUrls c4Mid).liveUrls)
    ∧ ((preloadTrackBlob c4Mid c4TrackG true).url = some 1 ∧ (1 : Nat) ≠ 0) := by
  have h := resolver_cache_spec c4Mid c4TrackF c4TrackG true true "f1" 0 1
  refine ⟨⟨by decide, h.1 (by decide)⟩, ⟨by decide, ?_, ?_⟩, ⟨by decide, ?_⟩⟩
  · exact (h.2.1 (by decide)).1
  · exact (h.2.1 (by decide)).2 (by decide)
  · exact (h.2.2 (by decide) (by decide)).2 (by decide)

/-- Claim C6: when the byte fetch of a path-backed track fails and no live
cache entry short-circuits the resolution, the resolver returns no URL
after attempting the fetch, surfaces the load error message, creates no
cache entry for the identity, and leaves the current selection (index and
library) untouched. -/
theorem resolve_failure_spec (s : AppState) (t : Track) (p : String)
    (hpath : t.path = some p) (hfile : t.file = none)
    (hnolive : (lookupSrc s.srcMap t.id).all (fun w => !(s.liveUrls.contains w)) = true) :
    (preloadTrackBlob s t false).url = none
    ∧ (preloadTrackBlob s t false).fetched = true
    ∧ (preloadTrackBlob s t false).state.loadError = some ("Failed to load: " ++ t.title)
    ∧ lookupSrc (preloadTrackBlob s t false).state.srcMap t.id = none
    ∧ (preloadTrackBlob s t false).state.currentIndex = s.currentIndex
    ∧ (preloadTrackBlob s t false).state.tracks = s.tracks
    ∧ currentTrack (preloadTrackBlob s t false).state = currentTrack s := by
  have hfs : t.file.isSome = false := by rw [hfile]; rfl
  cases hq : lookupSrc s.srcMap t.id with
  | none =>
    have hred : preloadTrackBlob s t false = fetchStage s t false := by
      unfold preloadTrackBlob
      rw [hq]
    rw [hred]
    unfold fetchStage
    rw [if_neg (by rw [hfs]; simp), if_pos (by rw [hpath]; rfl), if_neg (by simp)]
    exact ⟨rfl, rfl, rfl, hq, rfl, rfl, rfl⟩
  | some w =>
    have hw : s.liveUrls.contains w = false := by
      rw [hq] at hnolive
      simpa using hnolive
    have hred : preloadTrackBlob s t false
        = fetchStage { s with srcMap := delSrc s.srcMap t.id } t false := by
      unfold preloadTrackBlob
      simp only [hq]
      rw [if_neg (by rw [hw]; simp)]
    rw [hred]
    unfold fetchStage
    rw [if_neg (by rw [hfs]; simp), if_pos (by rw [hpath]; rfl), if_neg (by simp)]
    exact ⟨rfl, rfl, rfl, lookup_delSrc_self s.srcMap t.id, rfl, rfl, rfl⟩

/-- Witness for C6: fetching `/a/Song.mp3` fails from the initial state; the
error is surfaced, no cache entry exists, the selection is untouched. -/
theorem resolve_failure_spec_witness :
    c6Track.path = some "/a/Song.mp3"
    ∧ (preloadTrackBlob initState c6Track false).url = none
    ∧ (preloadTrackBlob initState c6Track false).state.loadError
        = some "Failed to load: Song"
    ∧ lookupSrc (preloadTrackBlob initState c6Track false).state.srcMap c6Track.id = none
    ∧ (preloadTrackBlob initState c6Track false).state.currentIndex = initState.currentIndex := by
  have h := resolve_failure_spec initState c6Track "/a/Song.mp3" (by decide) (by decide) (by decide)
  exact ⟨by decide, h.1, by simpa using h.2.2.1, h.2.2.2.1, h.2.2.2.2.1⟩

/-- The needle of an all-whitespace query is empty, so it matches. -/
theorem hasSubL_nil (s : List Char) : hasSubL [] s = true := by
  cases s <;> simp [hasSubL, headMatchL]

/-- Lowercasing keeps whitespace whitespace. -/
theorem isWs_toLower {c : Char} (h : isWs c = true) : isWs c.toLower = true := by
  have h2 : ((c = ' ' ∨ c = '\t') ∨ c = '\n') ∨ c = '\r' := by
    simpa [isWs, Bool.or_eq_true] using h
  rcases h2 with ((rfl | rfl) | rfl) | rfl <;> decide

/-- Trimming yields the empty list exactly for all-whitespace input. -/
theorem trimL_eq_nil_iff (l : List Char) : trimL l = [] ↔ l.all isWs = true := by
  unfold trimL
  constructor
  · intro h
    rw [List.reverse_eq_nil_iff, List.dropWhile_eq_nil_iff] at h
    rw [List.all_eq_true]
    intro x hx
    have hsplit := List.takeWhile_append_dropWhile isWs l
    rw [← hsplit] at hx
    rcases List.mem_append.mp hx with h1 | h2
    · exact List.mem_takeWhile_imp h1
    · exact h x (List.mem_reverse.mpr h2)
  · intro h
    have hd : l.dropWhile isWs = [] :=
      List.dropWhile_eq_nil_iff.mpr (fun x hx => List.all_eq_true.mp h x hx)
    rw [hd]
    rfl

/-- A query trims to the empty string exactly when it is all whitespace. -/
theorem jsTrim_eq_empty_iff (q : String) : jsTrim q = "" ↔ q.data.all isWs = true := by
  constructor
  · intro h
    have h2 : trimL q.data = [] := congrArg String.data h
    exact (trimL_eq_nil_iff _).mp h2
  · intro h
    apply String.ext
    exact (trimL_eq_nil_iff _).mpr h

/-- A query that trims to nothing matches every title. -/
theorem titleMatchB_trim_empty {q : String} (h : jsTrim q = "") (t : Track) :
    titleMatchB q t = true := by
  unfold titleMatchB
  have h1 : q.data.all isWs = true := (jsTrim_eq_empty_iff q).mp h
  have h2 : (jsLower q).data.all isWs = true := by
    rw [List.all_eq_true]
    intro x hx
    obtain ⟨c, hc, rfl⟩ := List.mem_map.mp hx
    exact isWs_toLower (List.all_eq_true.mp h1 c hc)
  have h3 : (jsTrim (jsLower q)).data = [] := (trimL_eq_nil_iff _).mpr h2
  rw [h3]
  exact hasSubL_nil _

/-- The playlist stage is always an in-order selection from the library. -/
theorem playlistBase_sublist (s : AppState) : (playlistBase s).Sublist s.tracks := by
  unfold playlistBase
  split
  · exact List.Sublist.refl _
  · split
    · exact List.filter_sublist _
    · exact List.Sublist.refl _

/-- Claim C7: the visible-tracks query equals the spec query — playlist
intersection (when a playlist filter is active) followed by the
case-insensitive title filter — preserves library order, and the search
filter is idempotent and commutes with the playlist filter. -/
theorem visibleTracks_spec (s : AppState)
    (_hsel : s.selectedPlaylistId = "all"
      ∨ (s.playlists.find? (fun pp => pp.id == s.selectedPlaylistId)).isSome = true) :
    visibleTracks s = visibleTracksSpec s
    ∧ (visibleTracks s).Sublist s.tracks
    ∧ (∀ (q : String) (l : List Track), List.filter (titleMatchB q) (List.filter (titleMatchB q) l)
        = List.filter (titleMatchB q) l)
    ∧ (∀ (q : String) (pl : Playlist) (l : List Track),
        List.filter (titleMatchB q) (List.filter (fun t => pl.trackIds.contains t.id) l)
        = List.filter (fun t => pl.trackIds.contains t.id) (List.filter (titleMatchB q) l)) := by
  refine ⟨?_, ?_, ?_, ?_⟩
  · unfold visibleTracks visibleTracksSpec
    by_cases hq : (jsTrim s.searchQuery == "") = true
    · rw [if_pos hq]
      have hq2 := beq_iff_eq.mp hq
      exact (List.filter_eq_self.mpr (fun a _ => titleMatchB_trim_empty hq2 a)).symm
    · rw [if_neg hq]
  · unfold visibleTracks
    split
    · exact playlistBase_sublist s
    · exact (List.filter_sublist _).trans (playlistBase_sublist s)
  · intro q l
    rw [List.filter_filter]
    apply List.filter_congr
    intro x _
    exact Bool.and_self _
  · intro q pl l
    exact List.filter_comm _ _ _

/-- Witness for C7 at a state with an active playlist filter and the query
`"  heLLo "`: the code query agrees with the spec query and returns exactly
the playlist member titled `Hello World`. -/
theorem visibleTracks_spec_witness :
    (c7State.playlists.find? (fun pp => pp.id == c7State.selectedPlaylistId)).isSome = true
    ∧ visibleTracks c7State = visibleTracksSpec c7State
    ∧ visibleTracks c7State = [⟨"x1", "Hello World", some "p1", none⟩] :=
  ⟨by decide, (visibleTracks_spec c7State (Or.inr (by decide))).1, by decide⟩

end BoomBox
